import Mathlib

/-!
Verification of the record reconciliation engine of the dss-projs repository.

The definitions below are a shallow embedding of the `AGOSyncManager` classes
found in `src/fnri/fnri_dataSync.py`, `src/fnri/fnri_dataSync_gdbAgo.py` and
`src/ipca/ipca_dataset_workflow.py`.  Stores (geodatabase feature classes and
AGOL feature layers) are modelled as lists of records; attribute values are
modelled by the `Value` type (null / integer / string, with dates represented
as integers); geometries are modelled as axis-aligned integer boxes, which is
enough to give spatial intersection a concrete, symmetric, decidable meaning.
Remote insertion success is modelled by a deterministic oracle
`ok : FnriRec -> Bool` standing for the AGOL service's per-record response.
-/

/-- An attribute value as it appears in the pandas dataframes of the sync
scripts: a true null (NaN/NaT/None), a number (dates are represented as
integer timestamps), or a string. -/
inductive Value where
  | null : Value
  | int : Int → Value
  | str : String → Value
deriving DecidableEq, Repr

/-- `pd.isna` on a dataframe cell. -/
def Value.isNull : Value → Bool
  | .null => true
  | _ => false

/-- Python `!=` between two dataframe cells.  A null cell is NaN/NaT in the
dataframes read by `get_agol_data`/`get_local_data`, and NaN compares unequal
to everything, including another NaN. -/
def pyNe (a b : Value) : Bool :=
  if a.isNull || b.isNull then true else a != b

/-- The null-aware field comparison used by
`AGOSyncManager.modify_edited_agol_attributes` (fnri_dataSync.py lines
276-278) and `append_edited_agol_records` (ipca_dataset_workflow.py lines
331-334): `if pd.isna(a) and pd.isna(l): continue; if a != l: ...`. -/
def fieldModified (a l : Value) : Bool :=
  if a.isNull && l.isNull then false else pyNe a l

/-- A geometry, modelled as an axis-aligned box with integer coordinates.
This is the minimal concrete model in which `arcpy` spatial intersection
(`SelectLayerByLocation "INTERSECT"`, which includes touching boundaries)
is a decidable, symmetric test. -/
structure Geom where
  xmin : Int
  xmax : Int
  ymin : Int
  ymax : Int
deriving DecidableEq, Repr

/-- Spatial intersection of two boxes (closed intervals, so geometries that
merely touch intersect, as with arcpy's INTERSECT relation). -/
def intersects (g h : Geom) : Bool :=
  decide (g.xmin ≤ h.xmax) && decide (h.xmin ≤ g.xmax) &&
  decide (g.ymin ≤ h.ymax) && decide (h.ymin ≤ g.ymax)

/-- Intersection lifted to optional geometries; a record without geometry
intersects nothing. -/
def intersectsOpt : Option Geom → Option Geom → Bool
  | some g, some h => intersects g h
  | _, _ => false

/-- Model of `geom.generalize(5)` (fnri_dataSync_gdbAgo.py line 532): the
5 m simplification applied before the single publish retry.  On boxes we
model it as snapping every coordinate to a multiple of 5. -/
def generalize5 (g : Geom) : Geom :=
  ⟨5 * (g.xmin / 5), 5 * (g.xmax / 5), 5 * (g.ymin / 5), 5 * (g.ymax / 5)⟩

/-- One row of the FNRI working/staging/AGOL datasets.  The named attribute
fields are exactly the `edit_fields` list of
`modify_edited_agol_attributes` (fnri_dataSync.py lines 249-253); `extra`
stands for any further attribute column that is not in that list, and
`geometry` for the SHAPE column. -/
structure FnriRec where
  uid : Nat
  FIRST_NATION : Value
  AGREEMENT_TYPE : Value
  AGREEMENT_STAGE : Value
  AGREEMENT_LINK : Value
  CONTACT_NAME : Value
  CONTACT_EMAIL : Value
  DATE_CREATED : Value
  Review_Status_FNLT : Value
  Review_Status_MIRR : Value
  Publish_Status : Value
  extra : Value
  geometry : Option Geom
deriving DecidableEq, Repr

/-- The values of the `edit_fields` whitelist of
`modify_edited_agol_attributes`, in source order. -/
def editValues (r : FnriRec) : List Value :=
  [r.FIRST_NATION, r.AGREEMENT_TYPE, r.AGREEMENT_STAGE, r.AGREEMENT_LINK,
   r.CONTACT_NAME, r.CONTACT_EMAIL, r.DATE_CREATED,
   r.Review_Status_FNLT, r.Review_Status_MIRR, r.Publish_Status]

/-- The (AGOL value, local value) pairs compared by the inner loop of
`modify_edited_agol_attributes`. -/
def editPairs (a l : FnriRec) : List (Value × Value) :=
  (editValues a).zip (editValues l)

/-- The per-identity change test of `modify_edited_agol_attributes`
(fnri_dataSync.py lines 273-280): the record is reported as modified as
soon as one whitelisted field differs under the null-aware comparison. -/
def recModified (a l : FnriRec) : Bool :=
  (editPairs a l).any fun p => fieldModified p.1 p.2

/-- The values of the `required` attribute list of `flag_missing_attributes`
(fnri_dataSync.py lines 320-323). -/
def requiredValues (r : FnriRec) : List Value :=
  [r.FIRST_NATION, r.AGREEMENT_TYPE, r.AGREEMENT_STAGE, r.AGREEMENT_LINK]

/-- The promotion mask of `move_published_to_staging` in fnri_dataSync.py
(lines 352-356): both review flags complete and status Ready to Publish. -/
def fnriReady (r : FnriRec) : Bool :=
  r.Review_Status_FNLT == Value.str "Review Complete" &&
  r.Review_Status_MIRR == Value.str "Review Complete" &&
  r.Publish_Status == Value.str "Ready to Publish"

/-- The promotion mask of `move_published_to_staging` in
fnri_dataSync_gdbAgo.py (lines 363-365): only the publish status is
checked. -/
def gdbAgoReady (r : FnriRec) : Bool :=
  r.Publish_Status == Value.str "Ready to Publish"

/-- Modelled from the spec (section 4.2): `is_promotion_eligible(record)` is the
conjunction of required-field completeness, review completeness and
status == ready-to-publish.  The repository has no such function; this
definition follows the spec's words so that it can be compared with the
masks the code actually uses. -/
def spec_isPromotionEligible (r : FnriRec) : Bool :=
  (requiredValues r).all (fun v => !v.isNull) &&
  r.Review_Status_FNLT == Value.str "Review Complete" &&
  r.Review_Status_MIRR == Value.str "Review Complete" &&
  r.Publish_Status == Value.str "Ready to Publish"

/-- The identities of a store, in row order. -/
def idsOf (l : List FnriRec) : List Nat :=
  l.map (·.uid)

/-- `uid in store[unique_id_field]` membership tests of the scripts. -/
def hasUid (l : List FnriRec) (u : Nat) : Bool :=
  l.any fun r => r.uid == u

/-- A store in which no two rows share an identity (the data-model invariant:
identity is unique within a store). -/
def idsNodup (l : List FnriRec) : Prop :=
  (idsOf l).Nodup

instance (l : List FnriRec) : Decidable (idsNodup l) := by
  unfold idsNodup; infer_instance

/-- The additions side of the diff: identities present in the working (local)
store and absent from the AGOL store, as computed by
`append_new_areas_to_agol` (fnri_dataSync.py line 154). -/
def additionsIds (working agol : List FnriRec) : List Nat :=
  idsOf (working.filter fun w => !hasUid agol w.uid)

/-- The deletions side of the diff: identities present in the AGOL store and
absent from the working store, as computed by
`delete_removed_local_records_from_agol` (fnri_dataSync.py lines 448-450). -/
def deletionsIds (working agol : List FnriRec) : List Nat :=
  idsOf (agol.filter fun a => !hasUid working a.uid)

/-- The modified identities computed by `modify_edited_agol_attributes`
(fnri_dataSync.py lines 268-280): for every AGOL row with a local
counterpart, report the identity when some whitelisted field differs. -/
def modificationIds (working agol : List FnriRec) : List Nat :=
  agol.filterMap fun a =>
    match working.find? (fun w => w.uid == a.uid) with
    | none => none
    | some l => if recModified a l then some a.uid else none

/-- Step 1 of the pipeline, `append_new_areas_to_agol`: append to AGOL the
working rows whose identity is new, and log their identities.  Returns the
new AGOL store and the logged identities. -/
def appendNewAreas (working agol : List FnriRec) : List FnriRec × List Nat :=
  let localNew := working.filter fun w => !hasUid agol w.uid
  if localNew.isEmpty then (agol, [])
  else (agol ++ localNew, idsOf localNew)

/-- The `Publish_Status` sentinel of `delete_retired_working_records`. -/
def retiredStatus : Value := Value.str "To be Retired from Working Data"

/-- Step 2, `delete_retired_working_records`: identities of AGOL rows marked
to be retired are removed from both working stores; returns
(working, agol, logged ids). -/
def deleteRetired (working agol : List FnriRec) :
    List FnriRec × List FnriRec × List Nat :=
  let retired := agol.filter fun a => a.Publish_Status == retiredStatus
  if retired.isEmpty then (working, agol, [])
  else
    let ids := idsOf retired
    (working.filter (fun w => !ids.contains w.uid),
     agol.filter (fun a => !ids.contains a.uid),
     ids)

/-- The write-back of `modify_edited_agol_attributes` on one working row:
every whitelisted field is set to the AGOL value (the cursor assigns
`row[idx] = new_val` for each differing field, so after the update all
whitelisted fields carry the AGOL values); `uid`, `extra` and the geometry
are not in the cursor's field list. -/
def setEditFields (a l : FnriRec) : FnriRec :=
  { l with
    FIRST_NATION := a.FIRST_NATION
    AGREEMENT_TYPE := a.AGREEMENT_TYPE
    AGREEMENT_STAGE := a.AGREEMENT_STAGE
    AGREEMENT_LINK := a.AGREEMENT_LINK
    CONTACT_NAME := a.CONTACT_NAME
    CONTACT_EMAIL := a.CONTACT_EMAIL
    DATE_CREATED := a.DATE_CREATED
    Review_Status_FNLT := a.Review_Status_FNLT
    Review_Status_MIRR := a.Review_Status_MIRR
    Publish_Status := a.Publish_Status }

/-- Step 3, `modify_edited_agol_attributes`: working rows whose identity was
detected as modified receive the AGOL values of the whitelisted fields.
The AGOL lookup `agol_indexed.at[fid, field]` is modelled by `find?`
(identities are unique within a store). -/
def modifyEdited (working agol : List FnriRec) : List FnriRec × List Nat :=
  let m := modificationIds working agol
  if m.isEmpty then (working, [])
  else
    (working.map fun w =>
      if m.contains w.uid then
        match agol.find? (fun a => a.uid == w.uid) with
        | some a => setEditFields a w
        | none => w
      else w,
     m)

/-- Step 4, `flag_missing_attributes` (fnri_dataSync.py lines 325-333):
identities of working rows with both reviews complete but some required
attribute null.  Pure flagging, no mutation. -/
def flagMissing (working : List FnriRec) : List Nat :=
  idsOf (working.filter fun r =>
    r.Review_Status_FNLT == Value.str "Review Complete" &&
    r.Review_Status_MIRR == Value.str "Review Complete" &&
    (requiredValues r).any Value.isNull)

/-- The copy inserted in staging by `move_published_to_staging` (fnri
variants, insertion loop lines 388-400): attributes from the working row,
`DATE_CREATED` stamped with today's date and `Publish_Status` forced to
"Published". -/
def promoteRec (today : Value) (r : FnriRec) : FnriRec :=
  { r with DATE_CREATED := today, Publish_Status := Value.str "Published" }

/-- The overlap scan of `move_published_to_staging` (fnri_dataSync.py lines
413-435), run against the staging store after the inserts: a just-moved
record is flagged when some other staging record (different identity)
spatially intersects it.  The `geom_lookup` dictionary keyed by identity is
modelled by filtering the staging rows whose identity was moved. -/
def overlapScan (staging : List FnriRec) (idsToMove : List Nat) : List Nat :=
  idsOf ((staging.filter fun r => idsToMove.contains r.uid).filter fun r =>
    staging.any fun o => o.uid != r.uid && intersectsOpt r.geometry o.geometry)

/-- Result of the promotion step: the two mutated stores and the two logged
identity lists (moved, overlap-flagged). -/
structure MoveResult where
  working : List FnriRec
  staging : List FnriRec
  movedIds : List Nat
  overlapIds : List Nat
deriving DecidableEq, Repr

/-- The `ids_to_move` set of `move_published_to_staging`: identities of the
working rows selected by the promotion mask. -/
def moveIdsToMove (mask : FnriRec → Bool) (working : List FnriRec) : List Nat :=
  idsOf (working.filter mask)

/-- The staging store after the delete-duplicates and insert steps of
`move_published_to_staging`: staging rows sharing an identity with a moved
row are deleted, then a promoted copy of every selected working row is
inserted. -/
def moveStagingOut (mask : FnriRec → Bool) (today : Value)
    (working staging : List FnriRec) : List FnriRec :=
  (staging.filter fun s => !(moveIdsToMove mask working).contains s.uid) ++
  (working.filter mask).map (promoteRec today)

/-- The working store after `move_published_to_staging`: every row whose
identity was moved is deleted. -/
def moveWorkingOut (mask : FnriRec → Bool) (working : List FnriRec) :
    List FnriRec :=
  working.filter fun w => !(moveIdsToMove mask working).contains w.uid

/-- Common body of `move_published_to_staging`, shared verbatim (apart from
the promotion mask) by fnri_dataSync.py (lines 342-439) and
fnri_dataSync_gdbAgo.py (lines 353-466): select the masked rows; delete
staging rows sharing an identity with them; insert promoted copies; delete
the moved identities from working; log `sorted(set(ids))`; run the overlap
scan on the resulting staging store.  When nothing is selected the method
returns early without touching either store. -/
def moveCore (mask : FnriRec → Bool) (today : Value)
    (working staging : List FnriRec) : MoveResult :=
  if (working.filter mask).isEmpty then ⟨working, staging, [], []⟩
  else
    ⟨moveWorkingOut mask working,
     moveStagingOut mask today working staging,
     List.insertionSort (· ≤ ·) (moveIdsToMove mask working).dedup,
     List.insertionSort (· ≤ ·)
       (overlapScan (moveStagingOut mask today working staging)
         (moveIdsToMove mask working)).dedup⟩

/-- Step 5 of fnri_dataSync.py: promotion gated by the three-condition
mask. -/
def movePublishedToStaging (today : Value) (working staging : List FnriRec) :
    MoveResult :=
  moveCore fnriReady today working staging

/-- The promotion step of fnri_dataSync_gdbAgo.py: same body, but the mask
checks only `Publish_Status`. -/
def movePublishedToStagingGdbAgo (today : Value)
    (working staging : List FnriRec) : MoveResult :=
  moveCore gdbAgoReady today working staging

/-- Step 6, `delete_removed_local_records_from_agol`: AGOL rows whose
identity no longer exists in the working store are deleted and logged. -/
def deleteRemovedFromAgol (working agol : List FnriRec) :
    List FnriRec × List Nat :=
  let removed := agol.filter fun a => !hasUid working a.uid
  if removed.isEmpty then (agol, [])
  else (agol.filter (fun a => hasUid working a.uid), idsOf removed)

/-- Outcome of a publish run: the remote store contents after the
truncate-and-reload and the identities that failed to publish. -/
structure PublishResult where
  remote : List FnriRec
  failedIds : List Nat
deriving DecidableEq, Repr

/-- Step 7 of fnri_dataSync.py, `overwrite_feature_layer` (lines 473-539):
truncate the remote layer, then walk the source rows one by one; a row
without geometry is skipped (not recorded anywhere); otherwise the single
insertion attempt either succeeds or the identity is recorded as failed.
There is no retry in this variant.  `ok` is the deterministic per-record
response of the remote service. -/
def overwriteFeatureLayer (ok : FnriRec → Bool) : List FnriRec → PublishResult
  | [] => ⟨[], []⟩
  | r :: rs =>
    let rest := overwriteFeatureLayer ok rs
    match r.geometry with
    | none => rest
    | some _ =>
      if ok r then ⟨r :: rest.remote, rest.failedIds⟩
      else ⟨rest.remote, r.uid :: rest.failedIds⟩

/-- The record as re-submitted on the retry of the gdbAgo variant: the
geometry simplified by the fixed 5 m tolerance. -/
def simplifyRec (r : FnriRec) : FnriRec :=
  { r with geometry := r.geometry.map generalize5 }

/-- `overwrite_feature_layer` of fnri_dataSync_gdbAgo.py (lines 469-548):
as above, but a failed insertion is retried exactly once with the
5 m-generalized geometry; only a second failure records the identity. -/
def overwriteFeatureLayerGdbAgo (ok : FnriRec → Bool) :
    List FnriRec → PublishResult
  | [] => ⟨[], []⟩
  | r :: rs =>
    let rest := overwriteFeatureLayerGdbAgo ok rs
    match r.geometry with
    | none => rest
    | some _ =>
      if ok r then ⟨r :: rest.remote, rest.failedIds⟩
      else if ok (simplifyRec r) then ⟨simplifyRec r :: rest.remote, rest.failedIds⟩
      else ⟨rest.remote, r.uid :: rest.failedIds⟩

/-- A record that fails both the plain attempt and the simplified retry in
the gdbAgo publish step (and is skipped when it has no geometry). -/
def doubleFails (ok : FnriRec → Bool) (r : FnriRec) : Bool :=
  r.geometry.isSome && !ok r && !ok (simplifyRec r)

/-- The four stores manipulated by one fnri_dataSync.py run. -/
structure SyncState where
  working : List FnriRec
  agol : List FnriRec
  staging : List FnriRec
  remote : List FnriRec
deriving DecidableEq, Repr

/-- The per-run change log of fnri_dataSync.py (`self.change_log`), one
identity list per category. -/
structure RunLog where
  added : List Nat
  retired : List Nat
  modified : List Nat
  missing : List Nat
  moved : List Nat
  overlaps : List Nat
  removed : List Nat
  publishFailed : List Nat
deriving DecidableEq, Repr

/-- A completed run: final stores plus the change log. -/
structure RunOut where
  state : SyncState
  log : RunLog
deriving DecidableEq, Repr

/-- One full fnri_dataSync.py run, in the order of the `__main__` block
(lines 678-711): append new areas, delete retired, write back AGOL edits,
flag missing attributes, promote to staging, delete removed from AGOL,
truncate-and-reload the staging AGOL layer.  The orchestrator re-reads the
stores before every step; here each step simply receives the current
state. -/
def runPipeline (today : Value) (ok : FnriRec → Bool) (st : SyncState) :
    RunOut :=
  let s1 := appendNewAreas st.working st.agol
  let s2 := deleteRetired st.working s1.1
  let s3 := modifyEdited s2.1 s2.2.1
  let missing := flagMissing s3.1
  let mv := movePublishedToStaging today s3.1 st.staging
  let s6 := deleteRemovedFromAgol mv.working s2.2.1
  let pub := overwriteFeatureLayer ok mv.staging
  ⟨⟨mv.working, s6.1, mv.staging, pub.remote⟩,
   ⟨s1.2, s2.2.2, s3.2, missing, mv.movedIds, mv.overlapIds, s6.2,
    pub.failedIds⟩⟩

/-- One row of the IPCA master/AGOL datasets.  The first nine value fields
are the `editCols` whitelist of `append_edited_agol_records`
(ipca_dataset_workflow.py lines 309-312); `EditDate` is the AGOL-side
system column used as timestamp fallback; `AGO_PUBLISH_YN` and
`AGO_PUBLISH_DATE` are the publish-tracking columns of the master dataset;
`extra` stands for any other attribute column and `geometry` for SHAPE. -/
structure IpcaRec where
  uid : Nat
  PROJECT_ID : Value
  FIRST_NATION_GROUP : Value
  PROJECT_NAME : Value
  PRIVACY_LEVEL : Value
  DATA_SOURCE : Value
  SPATIAL_ACCURACY : Value
  LAST_MODIFIED_DATE : Value
  UPDATE_LOG : Value
  EDITOR_NAME : Value
  EditDate : Value
  AGO_PUBLISH_YN : Value
  AGO_PUBLISH_DATE : Value
  extra : Value
  geometry : Option Geom
deriving DecidableEq, Repr

/-- The values of the `editCols` whitelist, in source order. -/
def ipcaEditValues (r : IpcaRec) : List Value :=
  [r.PROJECT_ID, r.FIRST_NATION_GROUP, r.PROJECT_NAME, r.PRIVACY_LEVEL,
   r.DATA_SOURCE, r.SPATIAL_ACCURACY, r.LAST_MODIFIED_DATE, r.UPDATE_LOG,
   r.EDITOR_NAME]

/-- The (AGOL value, local value) pairs compared by
`append_edited_agol_records` and `detect_modified_local_records`. -/
def ipcaEditPairs (a l : IpcaRec) : List (Value × Value) :=
  (ipcaEditValues a).zip (ipcaEditValues l)

/-- `>=` on timestamps as used by `append_edited_agol_records`
(`agol_modified_date >= local_modified_date`); dates are integers in this
model and the code guards both operands against null before comparing. -/
def valueGe : Value → Value → Bool
  | Value.int x, Value.int y => decide (x ≥ y)
  | _, _ => false

/-- Strict `>` on timestamps as used by `detect_modified_local_records`
(`local_modified_date > agol_modified_date`). -/
def valueGt : Value → Value → Bool
  | Value.int x, Value.int y => decide (x > y)
  | _, _ => false

/-- The effective AGOL-side modification timestamp: `LAST_MODIFIED_DATE`,
falling back to the system `EditDate` column when it is null
(ipca_dataset_workflow.py lines 335-338 and 412). -/
def ipcaAgolTs (a : IpcaRec) : Value :=
  if a.LAST_MODIFIED_DATE.isNull then a.EditDate else a.LAST_MODIFIED_DATE

/-- The AGOL-wins gate of `append_edited_agol_records`
(ipca_dataset_workflow.py line 347): the AGOL edit is taken when the local
timestamp is null, or when the AGOL timestamp is non-null and
greater-or-equal (so an exact tie is resolved in favour of AGOL). -/
def ipcaRemoteWins (a l : IpcaRec) : Bool :=
  l.LAST_MODIFIED_DATE.isNull ||
  (!(ipcaAgolTs a).isNull && valueGe (ipcaAgolTs a) l.LAST_MODIFIED_DATE)

/-- The per-identity test of `append_edited_agol_records` (lines 324-349):
the identity is reported (and later overwritten locally) when some
whitelisted field differs under the null-aware comparison and the
AGOL-wins gate passes.  The gate does not depend on the differing field,
so the loop-with-break is equivalent to this conjunction. -/
def ipcaEditedCheck (a l : IpcaRec) : Bool :=
  ((ipcaEditPairs a l).any fun p => fieldModified p.1 p.2) && ipcaRemoteWins a l

/-- The local-wins gate of `detect_modified_local_records`
(ipca_dataset_workflow.py lines 414-417): the local edit is reported only
when the local timestamp is non-null and the AGOL timestamp is null or
strictly older (so an exact tie is NOT reported — AGOL prevails in this
direction too). -/
def ipcaLocalWins (a l : IpcaRec) : Bool :=
  !l.LAST_MODIFIED_DATE.isNull &&
  ((ipcaAgolTs a).isNull || valueGt l.LAST_MODIFIED_DATE (ipcaAgolTs a))

/-- The per-identity test of `detect_modified_local_records`. -/
def ipcaLocalModifiedCheck (a l : IpcaRec) : Bool :=
  ((ipcaEditPairs a l).any fun p => fieldModified p.1 p.2) && ipcaLocalWins a l

/-- The write-back of `append_edited_agol_records` on one master row
(lines 355-384): every `editCols` field is set to the AGOL value, with the
`LAST_MODIFIED_DATE` fallback chain (AGOL value, else AGOL `EditDate`,
else today's date); `AGO_PUBLISH_YN` is forced to "Yes" and
`AGO_PUBLISH_DATE` to today's date.  `uid`, `EditDate`, `extra` and the
geometry are not in the cursor's field list. -/
def ipcaApplyRow (today : Value) (a l : IpcaRec) : IpcaRec :=
  { l with
    PROJECT_ID := a.PROJECT_ID
    FIRST_NATION_GROUP := a.FIRST_NATION_GROUP
    PROJECT_NAME := a.PROJECT_NAME
    PRIVACY_LEVEL := a.PRIVACY_LEVEL
    DATA_SOURCE := a.DATA_SOURCE
    SPATIAL_ACCURACY := a.SPATIAL_ACCURACY
    LAST_MODIFIED_DATE :=
      if !a.LAST_MODIFIED_DATE.isNull then a.LAST_MODIFIED_DATE
      else if !a.EditDate.isNull then a.EditDate
      else today
    UPDATE_LOG := a.UPDATE_LOG
    EDITOR_NAME := a.EDITOR_NAME
    AGO_PUBLISH_YN := Value.str "Yes"
    AGO_PUBLISH_DATE := today }

/-- `FEATURE_ID in local` membership test for IPCA stores. -/
def ipcaHasUid (l : List IpcaRec) (u : Nat) : Bool :=
  l.any fun r => r.uid == u

/-- The identities reported by `append_edited_agol_records`: AGOL rows with
a master counterpart passing the edited check. -/
def ipcaModificationIds (working agol : List IpcaRec) : List Nat :=
  agol.filterMap fun a =>
    match working.find? (fun w => w.uid == a.uid) with
    | none => none
    | some l => if ipcaEditedCheck a l then some a.uid else none

/-- `append_edited_agol_records` as a store transformation: detected rows
are overwritten with `ipcaApplyRow`; the rest of the master store is
untouched.  Returns the new master store and the logged identities. -/
def ipcaApply (today : Value) (working agol : List IpcaRec) :
    List IpcaRec × List Nat :=
  let m := ipcaModificationIds working agol
  if m.isEmpty then (working, [])
  else
    (working.map fun w =>
      if m.contains w.uid then
        match agol.find? (fun a => a.uid == w.uid) with
        | some a => ipcaApplyRow today a w
        | none => w
      else w,
     m)

theorem fieldModified_eq_false_iff (x y : Value) :
    fieldModified x y = false ↔ x = y := by
  cases x <;> cases y <;>
    simp [fieldModified, pyNe, Value.isNull, bne_eq_false_iff_eq]

theorem intersects_comm (g h : Geom) : intersects g h = intersects h g := by
  unfold intersects
  by_cases h1 : g.xmin ≤ h.xmax <;> by_cases h2 : h.xmin ≤ g.xmax <;>
    by_cases h3 : g.ymin ≤ h.ymax <;> by_cases h4 : h.ymin ≤ g.ymax <;>
      simp [h1, h2, h3, h4]

theorem intersectsOpt_comm (g h : Option Geom) :
    intersectsOpt g h = intersectsOpt h g := by
  cases g <;> cases h <;> simp [intersectsOpt, intersects_comm]

theorem hasUid_iff (l : List FnriRec) (u : Nat) :
    hasUid l u = true ↔ ∃ r ∈ l, r.uid = u := by
  simp [hasUid, List.any_eq_true]

theorem mem_idsOf (l : List FnriRec) (u : Nat) :
    u ∈ idsOf l ↔ ∃ r ∈ l, r.uid = u := by
  simp [idsOf, List.mem_map]

theorem uid_inj_of_nodup {l : List FnriRec} (h : idsNodup l)
    {r s : FnriRec} (hr : r ∈ l) (hs : s ∈ l) (huv : r.uid = s.uid) :
    r = s := by
  induction l with
  | nil => cases hr
  | cons x t ih =>
      have hnd : ¬ x.uid ∈ idsOf t ∧ (idsOf t).Nodup := by
        simpa [idsNodup, idsOf] using h
      rcases List.mem_cons.mp hr with rfl | hrt
      · rcases List.mem_cons.mp hs with rfl | hst
        · rfl
        · exact absurd ((mem_idsOf t r.uid).mpr ⟨s, hst, huv.symm⟩) hnd.1
      · rcases List.mem_cons.mp hs with rfl | hst
        · exact absurd ((mem_idsOf t s.uid).mpr ⟨r, hrt, huv⟩) hnd.1
        · exact ih hnd.2 hrt hst

theorem find?_uid_eq {l : List FnriRec} (h : idsNodup l)
    {r : FnriRec} (hr : r ∈ l) :
    l.find? (fun x => x.uid == r.uid) = some r := by
  induction l with
  | nil => cases hr
  | cons x t ih =>
      have hnd : ¬ x.uid ∈ idsOf t ∧ (idsOf t).Nodup := by
        simpa [idsNodup, idsOf] using h
      rcases List.mem_cons.mp hr with rfl | hrt
      · simp [List.find?]
      · have hx : (x.uid == r.uid) = false := by
          apply beq_eq_false_iff_ne.mpr
          intro he
          exact hnd.1 ((mem_idsOf t x.uid).mpr ⟨r, hrt, he.symm⟩)
        simpa [List.find?, hx] using ih hnd.2 hrt

theorem recModified_eq_false_iff (a l : FnriRec) :
    recModified a l = false ↔ editValues a = editValues l := by
  simp only [recModified, editPairs, editValues, List.zip, List.zipWith,
    List.any_cons, List.any_nil, Bool.or_eq_false_iff,
    fieldModified_eq_false_iff, List.cons.injEq, and_true]

theorem editValues_setEditFields (a l : FnriRec) :
    editValues (setEditFields a l) = editValues a := by
  simp [editValues, setEditFields]

theorem setEditFields_frame (a l : FnriRec) :
    (setEditFields a l).uid = l.uid ∧
    (setEditFields a l).geometry = l.geometry ∧
    (setEditFields a l).extra = l.extra := by
  simp [setEditFields]

theorem idsNodup_filter {l : List FnriRec} (h : idsNodup l)
    (p : FnriRec → Bool) : idsNodup (l.filter p) := by
  unfold idsNodup idsOf at *
  have hs : (l.filter p).Sublist l := List.filter_sublist l
  exact List.Nodup.sublist (hs.map (fun r => r.uid)) h

theorem idsNodup_map_uid {l : List FnriRec} (h : idsNodup l)
    {f : FnriRec → FnriRec} (hf : ∀ r, (f r).uid = r.uid) :
    idsNodup (l.map f) := by
  unfold idsNodup idsOf at *
  rw [List.map_map]
  have he : ((·.uid) ∘ f) = (·.uid) := by
    funext r; simp [hf r]
  rw [he]
  exact h

/-- A record with every attribute null, used to build concrete witnesses. -/
def baseRec : FnriRec :=
  ⟨0, Value.null, Value.null, Value.null, Value.null, Value.null, Value.null,
   Value.null, Value.null, Value.null, Value.null, Value.null, none⟩

/-- A record with every IPCA attribute null, used to build concrete
witnesses. -/
def ipcaBaseRec : IpcaRec :=
  ⟨0, Value.null, Value.null, Value.null, Value.null, Value.null, Value.null,
   Value.null, Value.null, Value.null, Value.null, Value.null, Value.null,
   Value.null, none⟩

/-- Claim C9: for every diff between two store snapshots, the additions and
deletions identity sets are disjoint, and every identity reported as
modified is present in both the working and the AGOL snapshot at diff
time. -/
theorem diff_identity_partition (working agol : List FnriRec) (i : Nat) :
    (i ∈ additionsIds working agol → i ∉ deletionsIds working agol) ∧
    (i ∈ modificationIds working agol →
      hasUid working i = true ∧ hasUid agol i = true) := by
  constructor
  · intro hadd hdel
    rw [additionsIds, mem_idsOf] at hadd
    rw [deletionsIds, mem_idsOf] at hdel
    obtain ⟨r, hrmem, hruid⟩ := hadd
    obtain ⟨s, hsmem, hsuid⟩ := hdel
    have hr := List.mem_filter.mp hrmem
    have hs := List.mem_filter.mp hsmem
    have hno : hasUid agol r.uid = false := by
      cases hav : hasUid agol r.uid
      · rfl
      · simp [hav] at hr
    have hyes : hasUid agol i = true :=
      (hasUid_iff agol i).mpr ⟨s, hs.1, hsuid⟩
    rw [hruid] at hno
    rw [hyes] at hno
    cases hno
  · intro hmod
    rw [modificationIds, List.mem_filterMap] at hmod
    obtain ⟨a, hamem, ha⟩ := hmod
    cases hfind : working.find? (fun w => w.uid == a.uid) with
    | none => rw [hfind] at ha; cases ha
    | some l =>
        rw [hfind] at ha
        have hl : l ∈ working := List.mem_of_find?_eq_some hfind
        have hlu2 : l.uid = a.uid := by
          have h1 := List.find?_some hfind
          simpa using h1
        have hai : a.uid = i := by
          by_cases hrm : recModified a l
          · simpa [hrm] using ha
          · simp [hrm] at ha
        constructor
        · exact (hasUid_iff working i).mpr ⟨l, hl, by rw [hlu2, hai]⟩
        · exact (hasUid_iff agol i).mpr ⟨a, hamem, hai⟩

/-- Working store used by the C9 witness. -/
def c9Working : List FnriRec :=
  [{ baseRec with uid := 1, FIRST_NATION := Value.str "X" },
   { baseRec with uid := 3 }]

/-- AGOL store used by the C9 witness. -/
def c9Agol : List FnriRec :=
  [{ baseRec with uid := 1, FIRST_NATION := Value.str "Y" },
   { baseRec with uid := 2 }]

/-- Witness for C9 at concrete stores: identity 3 is an addition and not a
deletion; identity 1 is a modification and present in both stores. -/
theorem diff_identity_partition_witness :
    (3 ∉ deletionsIds c9Working c9Agol) ∧
    (hasUid c9Working 1 = true ∧ hasUid c9Agol 1 = true) :=
  ⟨(diff_identity_partition c9Working c9Agol 3).1 (by decide),
   (diff_identity_partition c9Working c9Agol 1).2 (by decide)⟩

/-- AGOL-side record for the C2 counterexample: `PROJECT_ID` is null and the
effective AGOL timestamp (100) is older than the local one. -/
def c2Agol : IpcaRec :=
  { ipcaBaseRec with
    uid := 1
    PROJECT_ID := Value.null
    LAST_MODIFIED_DATE := Value.int 100 }

/-- Local-side record for the C2 counterexample: `PROJECT_ID` is 5 and the
local timestamp (200) is newer. -/
def c2Local : IpcaRec :=
  { ipcaBaseRec with
    uid := 1
    PROJECT_ID := Value.int 5
    LAST_MODIFIED_DATE := Value.int 200 }

/-- Counterexample to claim C2 as stated: in
`append_edited_agol_records` (ipca_dataset_workflow.py lines 324-349) a
watched field that is null on exactly one side (`PROJECT_ID`: null vs 5)
does NOT always get the identity reported as modified — the report is
additionally gated on the timestamp comparison, and here the local
timestamp is newer, so nothing is reported. -/
theorem null_vs_value_not_always_reported :
    c2Agol.PROJECT_ID.isNull = true ∧ c2Local.PROJECT_ID.isNull = false ∧
    fieldModified c2Agol.PROJECT_ID c2Local.PROJECT_ID = true ∧
    ipcaEditedCheck c2Agol c2Local = false ∧
    ipcaModificationIds [c2Local] [c2Agol] = [] := by
  decide

/-- Claim C2 as amended: field-level change detection is null-aware in both
variants — a field null on both sides never marks the identity as
modified, equal whitelists are never reported, and a field null on exactly
one side always differs; in the fnri variant such a difference alone
reports the identity, while in the ipca variant the difference is reported
only when the AGOL-wins timestamp gate also passes (and never when the
gate fails). -/
theorem nullAware_change_detection :
    (∀ x y : Value, x.isNull = true → y.isNull = true →
      fieldModified x y = false) ∧
    (∀ x y : Value, x.isNull ≠ y.isNull → fieldModified x y = true) ∧
    (∀ a l : FnriRec, editValues a = editValues l → recModified a l = false) ∧
    (∀ a l : FnriRec, (∃ p ∈ editPairs a l, p.1.isNull ≠ p.2.isNull) →
      recModified a l = true) ∧
    (∀ a l : IpcaRec, (∃ p ∈ ipcaEditPairs a l, p.1.isNull ≠ p.2.isNull) →
      ipcaRemoteWins a l = true → ipcaEditedCheck a l = true) ∧
    (∀ a l : IpcaRec, ipcaRemoteWins a l = false →
      ipcaEditedCheck a l = false) := by
  have hone : ∀ x y : Value, x.isNull ≠ y.isNull → fieldModified x y = true := by
    intro x y hxy
    cases x <;> cases y <;> simp [Value.isNull] at hxy ⊢ <;>
      simp [fieldModified, pyNe, Value.isNull]
  refine ⟨?_, hone, ?_, ?_, ?_, ?_⟩
  · intro x y hx hy
    cases x <;> cases y <;> simp_all [Value.isNull, fieldModified, pyNe]
  · intro a l h
    exact (recModified_eq_false_iff a l).mpr h
  · intro a l ⟨p, hp, hne⟩
    unfold recModified
    rw [List.any_eq_true]
    exact ⟨p, hp, hone p.1 p.2 hne⟩
  · intro a l ⟨p, hp, hne⟩ hgate
    unfold ipcaEditedCheck
    rw [Bool.and_eq_true, hgate]
    refine ⟨?_, rfl⟩
    rw [List.any_eq_true]
    exact ⟨p, hp, hone p.1 p.2 hne⟩
  · intro a l hgate
    unfold ipcaEditedCheck
    rw [hgate, Bool.and_false]

/-- Witness for the amended C2 at concrete inputs: null-vs-null is not a
change, null-vs-5 is a change, and the same one-null difference that the
ipca gate suppresses in the counterexample is reported once the gate
passes. -/
theorem nullAware_change_detection_witness :
    fieldModified Value.null Value.null = false ∧
    fieldModified Value.null (Value.int 5) = true ∧
    ipcaEditedCheck { ipcaBaseRec with PROJECT_ID := Value.int 5 } ipcaBaseRec
      = true :=
  ⟨nullAware_change_detection.1 Value.null Value.null (by decide) (by decide),
   nullAware_change_detection.2.1 Value.null (Value.int 5) (by decide),
   nullAware_change_detection.2.2.2.2.1
     { ipcaBaseRec with PROJECT_ID := Value.int 5 } ipcaBaseRec
     ⟨(Value.int 5, Value.null), by decide, by decide⟩ (by decide)⟩

/-- AGOL-side record for the C8 counterexample: a differing watched field
and the same modification timestamp as the local side. -/
def c8Agol : IpcaRec :=
  { ipcaBaseRec with
    uid := 2
    PROJECT_NAME := Value.str "A"
    LAST_MODIFIED_DATE := Value.int 100 }

/-- Local-side record for the C8 counterexample. -/
def c8Local : IpcaRec :=
  { ipcaBaseRec with
    uid := 2
    PROJECT_NAME := Value.str "B"
    LAST_MODIFIED_DATE := Value.int 100 }

/-- Counterexample to claim C8 as stated: with equal non-null timestamps on
both sides and a differing watched field, the code reports the AGOL edit
for write-back over the authoritative local store
(`append_edited_agol_records` uses `>=`, so a tie is resolved in favour of
AGOL, not of the caller-designated authoritative local side), while the
local-wins direction stays silent. -/
theorem tie_resolves_for_remote_not_local :
    c8Agol.LAST_MODIFIED_DATE = c8Local.LAST_MODIFIED_DATE ∧
    c8Local.LAST_MODIFIED_DATE.isNull = false ∧
    ipcaEditedCheck c8Agol c8Local = true ∧
    ipcaLocalModifiedCheck c8Agol c8Local = false ∧
    ipcaModificationIds [c8Local] [c8Agol] = [2] := by
  decide

/-- Claim C8 as amended: conflict resolution is last-writer-wins on the
modification timestamps (with the AGOL timestamp falling back to
`EditDate`), a null local timestamp always defers to the AGOL side, a null
AGOL timestamp defers to the local side — but equal timestamps resolve in
favour of the AGOL (remote) side in BOTH directions of propagation
(`>=` towards local, strict `>` required for local to win), not in favour
of the caller-designated authoritative side. -/
theorem lastWriterWins_tiebreak :
    (∀ (a l : IpcaRec) (ta tl : Int), ipcaAgolTs a = Value.int ta →
      l.LAST_MODIFIED_DATE = Value.int tl →
      ipcaRemoteWins a l = decide (ta ≥ tl) ∧
      ipcaLocalWins a l = decide (tl > ta)) ∧
    (∀ a l : IpcaRec, l.LAST_MODIFIED_DATE = Value.null →
      ipcaRemoteWins a l = true ∧ ipcaLocalWins a l = false) ∧
    (∀ a l : IpcaRec, ipcaAgolTs a = Value.null →
      l.LAST_MODIFIED_DATE.isNull = false →
      ipcaRemoteWins a l = false ∧ ipcaLocalWins a l = true) := by
  refine ⟨?_, ?_, ?_⟩
  · intro a l ta tl ha hl
    constructor
    · rw [ipcaRemoteWins, ha, hl]
      simp [Value.isNull, valueGe]
    · rw [ipcaLocalWins, ha, hl]
      simp [Value.isNull, valueGt]
  · intro a l hl
    constructor
    · rw [ipcaRemoteWins, hl]
      simp [Value.isNull]
    · rw [ipcaLocalWins, hl]
      simp [Value.isNull]
  · intro a l ha hl
    constructor
    · rw [ipcaRemoteWins, ha]
      simp [Value.isNull]
      exact hl
    · rw [ipcaLocalWins, ha]
      simp [Value.isNull]
      exact hl

/-- Witness for the amended C8 at concrete records: a strictly newer AGOL
timestamp wins, a tie also goes to AGOL, and a strictly newer local
timestamp wins the other direction. -/
theorem lastWriterWins_tiebreak_witness :
    (ipcaRemoteWins
        { ipcaBaseRec with LAST_MODIFIED_DATE := Value.int 7 }
        { ipcaBaseRec with LAST_MODIFIED_DATE := Value.int 3 } =
      decide ((7 : Int) ≥ 3)) ∧
    (ipcaRemoteWins
        { ipcaBaseRec with LAST_MODIFIED_DATE := Value.int 3 }
        { ipcaBaseRec with LAST_MODIFIED_DATE := Value.int 3 } =
      decide ((3 : Int) ≥ 3)) ∧
    (ipcaLocalWins
        { ipcaBaseRec with LAST_MODIFIED_DATE := Value.int 3 }
        { ipcaBaseRec with LAST_MODIFIED_DATE := Value.int 7 } =
      decide ((7 : Int) > 3)) :=
  ⟨(lastWriterWins_tiebreak.1
      { ipcaBaseRec with LAST_MODIFIED_DATE := Value.int 7 }
      { ipcaBaseRec with LAST_MODIFIED_DATE := Value.int 3 } 7 3
      (by decide) (by decide)).1,
   (lastWriterWins_tiebreak.1
      { ipcaBaseRec with LAST_MODIFIED_DATE := Value.int 3 }
      { ipcaBaseRec with LAST_MODIFIED_DATE := Value.int 3 } 3 3
      (by decide) (by decide)).1,
   (lastWriterWins_tiebreak.1
      { ipcaBaseRec with LAST_MODIFIED_DATE := Value.int 3 }
      { ipcaBaseRec with LAST_MODIFIED_DATE := Value.int 7 } 3 7
      (by decide) (by decide)).2⟩

theorem ipcaApplyRow_frame (today : Value) (a l : IpcaRec) :
    (ipcaApplyRow today a l).uid = l.uid ∧
    (ipcaApplyRow today a l).geometry = l.geometry ∧
    (ipcaApplyRow today a l).extra = l.extra ∧
    (ipcaApplyRow today a l).EditDate = l.EditDate := by
  simp [ipcaApplyRow]

/-- Master row for the C10 counterexample: publish flag still "No". -/
def c10Local : IpcaRec :=
  { ipcaBaseRec with
    uid := 3
    PROJECT_NAME := Value.str "B"
    LAST_MODIFIED_DATE := Value.int 100
    AGO_PUBLISH_YN := Value.str "No" }

/-- AGOL row for the C10 counterexample: a newer differing edit. -/
def c10Agol : IpcaRec :=
  { ipcaBaseRec with
    uid := 3
    PROJECT_NAME := Value.str "A"
    LAST_MODIFIED_DATE := Value.int 200 }

/-- Counterexample to claim C10 as stated: applying AGOL edits back to the
ipca master store also writes the publish-tracking columns, which are not
in the `editCols` whitelist — `AGO_PUBLISH_YN` flips from "No" to "Yes"
and `AGO_PUBLISH_DATE` is stamped with today's date
(ipca_dataset_workflow.py lines 376-381). -/
theorem non_whitelisted_fields_written :
    (ipcaApply (Value.int 999) [c10Local] [c10Agol]).1.map (·.AGO_PUBLISH_YN)
      = [Value.str "Yes"] ∧
    (ipcaApply (Value.int 999) [c10Local] [c10Agol]).1.map (·.AGO_PUBLISH_DATE)
      = [Value.int 999] ∧
    c10Local.AGO_PUBLISH_YN = Value.str "No" ∧
    c10Local.AGO_PUBLISH_DATE = Value.null := by
  decide

/-- Claim C10 as amended: when remote edits are written back, each store row
corresponds one-to-one to its updated version; the identity, the geometry
and every attribute outside the cursor's field list (`extra`; for ipca
also `EditDate`) are unchanged, and a row whose identity is not in the
modified set is entirely unchanged.  In the ipca variant the cursor's
field list additionally contains the publish-tracking columns
`AGO_PUBLISH_YN`/`AGO_PUBLISH_DATE`, which ARE written for modified rows
(see the counterexample), so they are exempt from the frame. -/
theorem edit_whitelist_frame :
    (∀ working agol : List FnriRec,
      List.Forall₂ (fun w wOut =>
        wOut.uid = w.uid ∧ wOut.geometry = w.geometry ∧
        wOut.extra = w.extra ∧
        (w.uid ∉ (modifyEdited working agol).2 → wOut = w))
        working (modifyEdited working agol).1) ∧
    (∀ (today : Value) (working agol : List IpcaRec),
      List.Forall₂ (fun w wOut =>
        wOut.uid = w.uid ∧ wOut.geometry = w.geometry ∧
        wOut.extra = w.extra ∧ wOut.EditDate = w.EditDate ∧
        (w.uid ∉ (ipcaApply today working agol).2 → wOut = w))
        working (ipcaApply today working agol).1) := by
  constructor
  · intro working agol
    by_cases hm : (modificationIds working agol).isEmpty = true
    · simp only [modifyEdited]
      rw [if_pos hm]
      apply List.forall₂_same.mpr
      intro x _
      exact ⟨rfl, rfl, rfl, fun _ => rfl⟩
    · simp only [modifyEdited]
      rw [if_neg hm]
      rw [List.forall₂_map_right_iff]
      apply List.forall₂_same.mpr
      intro x _
      by_cases hc : (modificationIds working agol).contains x.uid = true
      · have hmem : x.uid ∈ modificationIds working agol := by
          simpa using hc
        rw [if_pos hc]
        cases hf : agol.find? (fun a => a.uid == x.uid) with
        | none =>
            simp [hf]
        | some a =>
            simp only [hf]
            exact ⟨(setEditFields_frame a x).1, (setEditFields_frame a x).2.1,
                   (setEditFields_frame a x).2.2,
                   fun hnot => absurd hmem hnot⟩
      · rw [if_neg hc]
        exact ⟨rfl, rfl, rfl, fun _ => rfl⟩
  · intro today working agol
    by_cases hm : (ipcaModificationIds working agol).isEmpty = true
    · simp only [ipcaApply]
      rw [if_pos hm]
      apply List.forall₂_same.mpr
      intro x _
      exact ⟨rfl, rfl, rfl, rfl, fun _ => rfl⟩
    · simp only [ipcaApply]
      rw [if_neg hm]
      rw [List.forall₂_map_right_iff]
      apply List.forall₂_same.mpr
      intro x _
      by_cases hc : (ipcaModificationIds working agol).contains x.uid = true
      · have hmem : x.uid ∈ ipcaModificationIds working agol := by
          simpa using hc
        rw [if_pos hc]
        cases hf : agol.find? (fun a => a.uid == x.uid) with
        | none =>
            simp [hf]
        | some a =>
            simp only [hf]
            exact ⟨(ipcaApplyRow_frame today a x).1,
                   (ipcaApplyRow_frame today a x).2.1,
                   (ipcaApplyRow_frame today a x).2.2.1,
                   (ipcaApplyRow_frame today a x).2.2.2,
                   fun hnot => absurd hmem hnot⟩
      · rw [if_neg hc]
        exact ⟨rfl, rfl, rfl, rfl, fun _ => rfl⟩

theorem moveCore_movedIds_mem (mask : FnriRec → Bool) (today : Value)
    (working staging : List FnriRec) (u : Nat) :
    u ∈ (moveCore mask today working staging).movedIds ↔
      ∃ r ∈ working, r.uid = u ∧ mask r = true := by
  unfold moveCore
  by_cases he : (working.filter mask).isEmpty = true
  · rw [if_pos he]
    have hnil : working.filter mask = [] := List.isEmpty_iff.mp he
    constructor
    · intro h; cases h
    · rintro ⟨r, hr, _, hm⟩
      have : r ∈ working.filter mask := List.mem_filter.mpr ⟨hr, hm⟩
      rw [hnil] at this
      cases this
  · rw [if_neg he]
    dsimp only
    rw [(List.perm_insertionSort (· ≤ ·) _).mem_iff, List.mem_dedup,
      moveIdsToMove, mem_idsOf]
    constructor
    · rintro ⟨r, hr, hu⟩
      have h := List.mem_filter.mp hr
      exact ⟨r, h.1, hu, h.2⟩
    · rintro ⟨r, hr, hu, hm⟩
      exact ⟨r, List.mem_filter.mpr ⟨hr, hm⟩, hu⟩

/-- Record for the C1 counterexample: both reviews complete and status
Ready to Publish, but the required attribute `FIRST_NATION` is null. -/
def c1Rec : FnriRec :=
  { baseRec with
    uid := 7
    Review_Status_FNLT := Value.str "Review Complete"
    Review_Status_MIRR := Value.str "Review Complete"
    Publish_Status := Value.str "Ready to Publish"
    geometry := some ⟨0, 1, 0, 1⟩ }

/-- Second record for the C1 counterexample, for the gdbAgo variant: all
required attributes filled and status Ready to Publish, but neither
review flag is complete. -/
def c1RecB : FnriRec :=
  { baseRec with
    uid := 8
    FIRST_NATION := Value.str "X"
    AGREEMENT_TYPE := Value.str "T"
    AGREEMENT_STAGE := Value.str "S"
    AGREEMENT_LINK := Value.str "L"
    Publish_Status := Value.str "Ready to Publish"
    geometry := some ⟨0, 1, 0, 1⟩ }

/-- Counterexample to claim C1 as stated: `move_published_to_staging` does
not re-check required-field completeness — a record with a null required
attribute (flagged by `flag_missing_attributes`!) is still moved to
staging by fnri_dataSync.py, and the gdbAgo variant moves a record whose
review flags are not complete either. -/
theorem ineligible_record_is_moved :
    spec_isPromotionEligible c1Rec = false ∧
    flagMissing [c1Rec] = [7] ∧
    7 ∈ (movePublishedToStaging (Value.int 1) [c1Rec] []).movedIds ∧
    hasUid (movePublishedToStaging (Value.int 1) [c1Rec] []).staging 7 = true ∧
    (movePublishedToStaging (Value.int 1) [c1Rec] []).working = [] ∧
    spec_isPromotionEligible c1RecB = false ∧
    8 ∈ (movePublishedToStagingGdbAgo (Value.int 1) [c1RecB] []).movedIds := by
  decide

/-- Claim C1 as amended: the promotion step moves a record exactly when it
passes the variant's status mask — in fnri_dataSync.py both review-status
fields must equal "Review Complete" and the publish-status field must be
"Ready to Publish"; in fnri_dataSync_gdbAgo.py only the publish-status
condition is checked.  Required-field completeness is not part of either
gate (it is only flagged separately by `flag_missing_attributes`). -/
theorem moved_iff_status_mask (today : Value) (working staging : List FnriRec)
    (u : Nat) :
    (u ∈ (movePublishedToStaging today working staging).movedIds ↔
      ∃ r ∈ working, r.uid = u ∧ fnriReady r = true) ∧
    (u ∈ (movePublishedToStagingGdbAgo today working staging).movedIds ↔
      ∃ r ∈ working, r.uid = u ∧ gdbAgoReady r = true) :=
  ⟨moveCore_movedIds_mem fnriReady today working staging u,
   moveCore_movedIds_mem gdbAgoReady today working staging u⟩

/-- Record used by the C1 witness: fully eligible. -/
def c1Good : FnriRec :=
  { baseRec with
    uid := 9
    FIRST_NATION := Value.str "X"
    AGREEMENT_TYPE := Value.str "T"
    AGREEMENT_STAGE := Value.str "S"
    AGREEMENT_LINK := Value.str "L"
    Review_Status_FNLT := Value.str "Review Complete"
    Review_Status_MIRR := Value.str "Review Complete"
    Publish_Status := Value.str "Ready to Publish"
    geometry := some ⟨0, 1, 0, 1⟩ }

/-- Witness for the amended C1: at a concrete one-record store the
mask-characterisation instantiates in both directions. -/
theorem moved_iff_status_mask_witness :
    9 ∈ (movePublishedToStaging (Value.int 1) [c1Good] []).movedIds ∧
    9 ∉ (movePublishedToStagingGdbAgo (Value.int 1) [baseRec] []).movedIds :=
  ⟨(moved_iff_status_mask (Value.int 1) [c1Good] [] 9).1.mpr
      ⟨c1Good, by decide, rfl, by decide⟩,
   fun h => by
      rcases (moved_iff_status_mask (Value.int 1) [baseRec] [] 9).2.mp h with
        ⟨r, hr, _, hm⟩
      rcases List.mem_singleton.mp hr with rfl
      exact absurd hm (by decide)⟩

theorem overwrite_chr (ok : FnriRec → Bool) (src : List FnriRec) :
    (overwriteFeatureLayer ok src).remote =
      src.filter (fun r => r.geometry.isSome && ok r) ∧
    (overwriteFeatureLayer ok src).failedIds =
      idsOf (src.filter (fun r => r.geometry.isSome && !ok r)) := by
  induction src with
  | nil => exact ⟨rfl, rfl⟩
  | cons r rs ih =>
      cases hg : r.geometry with
      | none =>
          constructor
          · simp [overwriteFeatureLayer, hg, List.filter_cons, ih.1]
          · simp [overwriteFeatureLayer, hg, List.filter_cons, ih.2]
      | some g =>
          by_cases ho : ok r = true
          · constructor
            · simp [overwriteFeatureLayer, hg, List.filter_cons, ho, ih.1]
            · simp [overwriteFeatureLayer, hg, List.filter_cons, ho, ih.2]
          · have ho2 : ok r = false := by
              revert ho; cases ok r <;> simp
            constructor
            · simp [overwriteFeatureLayer, hg, List.filter_cons, ho2, ih.1]
            · simp [overwriteFeatureLayer, hg, List.filter_cons, ho2, ih.2,
                idsOf]

theorem overwriteGdbAgo_failed (ok : FnriRec → Bool) (src : List FnriRec) :
    (overwriteFeatureLayerGdbAgo ok src).failedIds =
      idsOf (src.filter (doubleFails ok)) := by
  induction src with
  | nil => rfl
  | cons r rs ih =>
      cases hg : r.geometry with
      | none =>
          simp [overwriteFeatureLayerGdbAgo, hg, List.filter_cons,
            doubleFails, ih]
      | some g =>
          by_cases ho : ok r = true
          · simp [overwriteFeatureLayerGdbAgo, hg, List.filter_cons,
              doubleFails, ho, ih]
          · have ho2 : ok r = false := by
              revert ho; cases ok r <;> simp
            by_cases hs : ok (simplifyRec r) = true
            · simp [overwriteFeatureLayerGdbAgo, hg, List.filter_cons,
                doubleFails, ho2, hs, ih]
            · have hs2 : ok (simplifyRec r) = false := by
                revert hs; cases ok (simplifyRec r) <;> simp
              simp [overwriteFeatureLayerGdbAgo, hg, List.filter_cons,
                doubleFails, ho2, hs2, ih, idsOf]

theorem overwriteGdbAgo_length (ok : FnriRec → Bool) (src : List FnriRec)
    (hall : ∀ r ∈ src, r.geometry.isSome = true) :
    (overwriteFeatureLayerGdbAgo ok src).remote.length +
      (overwriteFeatureLayerGdbAgo ok src).failedIds.length = src.length := by
  induction src with
  | nil => rfl
  | cons r rs ih =>
      have hr := hall r (List.mem_cons_self r rs)
      have ih2 := ih fun x hx => hall x (List.mem_cons_of_mem r hx)
      cases hg : r.geometry with
      | none => rw [hg] at hr; simp at hr
      | some g =>
          by_cases ho : ok r = true
          · simp only [overwriteFeatureLayerGdbAgo, hg, ho, if_true,
              List.length_cons]
            omega
          · have ho2 : ok r = false := by
              revert ho; cases ok r <;> simp
            by_cases hs : ok (simplifyRec r) = true
            · simp only [overwriteFeatureLayerGdbAgo, hg, ho2, hs,
                Bool.false_eq_true, if_false, if_true, List.length_cons]
              omega
            · have hs2 : ok (simplifyRec r) = false := by
                revert hs; cases ok (simplifyRec r) <;> simp
              simp only [overwriteFeatureLayerGdbAgo, hg, ho2, hs2,
                Bool.false_eq_true, if_false, List.length_cons]
              omega

/-- Claim C3 as amended: in the gdbAgo variant a failed insertion is retried
exactly once with the 5 m-generalized geometry, the failed-identity list
is exactly the records (with geometry) failing both attempts, publishing
continues past individual failures, and the remote and failed counts
partition the source (so 10 records with exactly 2 double failures yield
8 published and 2 failed).  In the base fnri_dataSync.py variant there is
NO retry: the failed list is exactly the records whose single attempt
fails. -/
theorem publish_retry_and_resilience (ok : FnriRec → Bool)
    (src : List FnriRec) :
    (overwriteFeatureLayerGdbAgo ok src).failedIds =
      idsOf (src.filter (doubleFails ok)) ∧
    ((∀ r ∈ src, r.geometry.isSome = true) →
      (overwriteFeatureLayerGdbAgo ok src).remote.length +
        (overwriteFeatureLayerGdbAgo ok src).failedIds.length = src.length) ∧
    (overwriteFeatureLayer ok src).failedIds =
      idsOf (src.filter fun r => r.geometry.isSome && !ok r) :=
  ⟨overwriteGdbAgo_failed ok src,
   fun h => overwriteGdbAgo_length ok src h,
   (overwrite_chr ok src).2⟩

/-- A simple record with geometry, parameterized by identity, for the
publish witnesses. -/
def mkRec (n : Nat) : FnriRec :=
  { baseRec with uid := n, geometry := some ⟨0, 1, 0, 1⟩ }

/-- Ten source records for the C3 witness. -/
def c3Src : List FnriRec :=
  [mkRec 1, mkRec 2, mkRec 3, mkRec 4, mkRec 5,
   mkRec 6, mkRec 7, mkRec 8, mkRec 9, mkRec 10]

/-- Oracle for the C3 witness: records 3 and 7 fail every attempt
(simplification preserves the identity), the rest succeed. -/
def c3OkW : FnriRec → Bool :=
  fun r => !(r.uid == 3 || r.uid == 7)

/-- Witness for the amended C3: on 10 concrete records of which exactly 2
fail both attempts, the failed list is [3, 7] and 8 records are
published. -/
theorem publish_retry_and_resilience_witness :
    (overwriteFeatureLayerGdbAgo c3OkW c3Src).failedIds =
      idsOf (c3Src.filter (doubleFails c3OkW)) ∧
    (overwriteFeatureLayerGdbAgo c3OkW c3Src).remote.length +
      (overwriteFeatureLayerGdbAgo c3OkW c3Src).failedIds.length =
      c3Src.length ∧
    c3Src.length = 10 ∧
    (overwriteFeatureLayerGdbAgo c3OkW c3Src).failedIds = [3, 7] ∧
    (overwriteFeatureLayerGdbAgo c3OkW c3Src).remote.length = 8 :=
  ⟨(publish_retry_and_resilience c3OkW c3Src).1,
   (publish_retry_and_resilience c3OkW c3Src).2.1 (by decide),
   by decide, by decide, by decide⟩

/-- Record for the C3 counterexample. -/
def c3Rec : FnriRec :=
  { baseRec with uid := 11, geometry := some ⟨1, 2, 1, 2⟩ }

/-- Oracle for the C3 counterexample: only the 5 m-generalized geometry of
`c3Rec` is accepted by the service. -/
def c3Ok : FnriRec → Bool :=
  fun r => r.geometry == some (⟨0, 0, 0, 0⟩ : Geom)

/-- Counterexample to claim C3 as stated: in the fnri_dataSync.py publish
step (lines 504-539) a record whose first insertion fails is NOT retried
with simplified geometry — it is recorded as failed immediately, even
though the simplified retry would have succeeded (as the gdbAgo variant
demonstrates on the same input). -/
theorem no_retry_in_base_variant :
    c3Ok c3Rec = false ∧
    c3Ok (simplifyRec c3Rec) = true ∧
    (overwriteFeatureLayer c3Ok [c3Rec]).failedIds = [11] ∧
    (overwriteFeatureLayerGdbAgo c3Ok [c3Rec]).failedIds = [] ∧
    (overwriteFeatureLayerGdbAgo c3Ok [c3Rec]).remote = [simplifyRec c3Rec] := by
  decide

/-- Claim C4 as amended: after the truncate-then-reload publish, every
remote record is one of the source records, and every source record that
HAS a geometry either ends up on the remote store or has its identity in
the failed-to-publish list.  Records with a null geometry are skipped
silently (see the counterexample), so they are exempt. -/
theorem publish_subset_and_failed_accounting (ok : FnriRec → Bool)
    (src : List FnriRec) :
    (∀ r ∈ (overwriteFeatureLayer ok src).remote, r ∈ src) ∧
    (∀ r ∈ src, r.geometry.isSome = true →
      r ∈ (overwriteFeatureLayer ok src).remote ∨
      r.uid ∈ (overwriteFeatureLayer ok src).failedIds) := by
  constructor
  · intro r hr
    rw [(overwrite_chr ok src).1] at hr
    exact (List.mem_filter.mp hr).1
  · intro r hr hg
    by_cases ho : ok r = true
    · left
      rw [(overwrite_chr ok src).1]
      exact List.mem_filter.mpr ⟨hr, by simp [hg, ho]⟩
    · right
      have ho2 : ok r = false := by
        revert ho; cases ok r <;> simp
      rw [(overwrite_chr ok src).2, mem_idsOf]
      exact ⟨r, List.mem_filter.mpr ⟨hr, by simp [hg, ho2]⟩, rfl⟩

/-- Record with geometry for the C4 witness. -/
def c4Rec : FnriRec :=
  { baseRec with uid := 12, geometry := some ⟨0, 1, 0, 1⟩ }

/-- Witness for the amended C4 at a concrete input: with a service that
rejects everything, the record's identity lands in the failed list; with
one that accepts everything, the remote record is a source record. -/
theorem publish_subset_and_failed_accounting_witness :
    (c4Rec ∈ (overwriteFeatureLayer (fun _ => false) [c4Rec]).remote ∨
      12 ∈ (overwriteFeatureLayer (fun _ => false) [c4Rec]).failedIds) ∧
    (c4Rec ∈ [c4Rec]) :=
  ⟨(publish_subset_and_failed_accounting (fun _ => false) [c4Rec]).2
      c4Rec (by decide) (by decide),
   (publish_subset_and_failed_accounting (fun _ => true) [c4Rec]).1
      c4Rec (by decide)⟩

/-- Record without geometry for the C4 counterexample. -/
def c4NoGeom : FnriRec :=
  { baseRec with uid := 13, geometry := none }

/-- Counterexample to claim C4 as stated: a source record with no geometry
is skipped by `overwrite_feature_layer` (fnri_dataSync.py lines 508-510)
without being recorded — it is absent from the remote store after the run
AND absent from the failed-to-publish list, i.e. it is silently omitted. -/
theorem skipped_record_not_in_failed_list :
    c4NoGeom ∈ [c4NoGeom] ∧
    (overwriteFeatureLayer (fun _ => true) [c4NoGeom]).remote = [] ∧
    (overwriteFeatureLayer (fun _ => true) [c4NoGeom]).failedIds = [] := by
  decide

theorem filter_uid_singleton {l : List FnriRec} (hnd : idsNodup l)
    {w : FnriRec} (hw : w ∈ l) :
    l.filter (fun r => r.uid == w.uid) = [w] := by
  induction l with
  | nil => cases hw
  | cons x t ih =>
      have hnd2 : ¬ x.uid ∈ idsOf t ∧ (idsOf t).Nodup := by
        simpa [idsNodup, idsOf] using hnd
      rcases List.mem_cons.mp hw with rfl | hwt
      · rw [List.filter_cons]
        simp only [beq_self_eq_true, if_true]
        have ht : t.filter (fun r => r.uid == w.uid) = [] := by
          rw [List.filter_eq_nil_iff]
          intro r hr hp
          have : r.uid = w.uid := by simpa using hp
          exact hnd2.1 ((mem_idsOf t w.uid).mpr ⟨r, hr, this⟩)
        rw [ht]
      · have hx : (x.uid == w.uid) = false := by
          apply beq_eq_false_iff_ne.mpr
          intro he
          exact hnd2.1 ((mem_idsOf t x.uid).mpr ⟨w, hwt, he.symm⟩)
        rw [List.filter_cons]
        simp only [hx, Bool.false_eq_true, if_false]
        exact ih hnd2.2 hwt

/-- Claim C5: promoting an identity that staging already contains leaves
staging with exactly one record for that identity, carrying the working
version's attributes with `DATE_CREATED` stamped and `Publish_Status`
forced to "Published" — neither a duplicate nor the old staging row
survives. -/
theorem promotion_overwrite (today : Value) (working staging : List FnriRec)
    (w : FnriRec) (hnd : idsNodup working) (hw : w ∈ working)
    (helig : spec_isPromotionEligible w = true)
    (_hstag : hasUid staging w.uid = true) :
    (movePublishedToStaging today working staging).staging.filter
      (fun r => r.uid == w.uid) = [promoteRec today w] := by
  have hready : fnriReady w = true := by
    have h := helig
    simp only [spec_isPromotionEligible, Bool.and_eq_true] at h
    simp [fnriReady, h.1.1.2, h.1.2, h.2]
  have hmem : w ∈ working.filter fnriReady := List.mem_filter.mpr ⟨hw, hready⟩
  have hnonempty : ¬((working.filter fnriReady).isEmpty = true) := by
    intro h
    rw [List.isEmpty_iff.mp h] at hmem
    cases hmem
  unfold movePublishedToStaging moveCore
  rw [if_neg hnonempty]
  dsimp only
  unfold moveStagingOut
  rw [List.filter_append]
  have huidmem : w.uid ∈ moveIdsToMove fnriReady working :=
    (mem_idsOf _ _).mpr ⟨w, hmem, rfl⟩
  have h1 : (staging.filter fun s =>
      !(moveIdsToMove fnriReady working).contains s.uid).filter
      (fun r => r.uid == w.uid) = [] := by
    rw [List.filter_filter, List.filter_eq_nil_iff]
    intro s _ hp
    simp only [Bool.and_eq_true, Bool.not_eq_true'] at hp
    have hsu : s.uid = w.uid := by simpa using hp.1
    have : (moveIdsToMove fnriReady working).contains s.uid = true := by
      rw [hsu]
      simpa using huidmem
    rw [this] at hp
    cases hp.2
  have h2 : ((working.filter fnriReady).map (promoteRec today)).filter
      (fun r => r.uid == w.uid) = [promoteRec today w] := by
    rw [List.filter_map]
    have hp : ((fun r => r.uid == w.uid) ∘ promoteRec today) =
        (fun r : FnriRec => r.uid == w.uid) := rfl
    rw [hp, filter_uid_singleton (idsNodup_filter hnd fnriReady) hmem]
    rfl
  rw [h1, h2, List.nil_append]

/-- Working record for the C5 witness. -/
def c5New : FnriRec :=
  { baseRec with
    uid := 14
    FIRST_NATION := Value.str "X"
    AGREEMENT_TYPE := Value.str "T"
    AGREEMENT_STAGE := Value.str "S"
    AGREEMENT_LINK := Value.str "L"
    Review_Status_FNLT := Value.str "Review Complete"
    Review_Status_MIRR := Value.str "Review Complete"
    Publish_Status := Value.str "Ready to Publish"
    geometry := some ⟨0, 1, 0, 1⟩ }

/-- Old staging record with the same identity for the C5 witness. -/
def c5Old : FnriRec :=
  { baseRec with
    uid := 14
    FIRST_NATION := Value.str "OLD"
    Publish_Status := Value.str "Published"
    geometry := some ⟨5, 6, 5, 6⟩ }

/-- Witness for C5 at concrete stores: staging already holds identity 14 and
ends up with exactly the freshly promoted copy. -/
theorem promotion_overwrite_witness :
    (movePublishedToStaging (Value.int 365) [c5New] [c5Old]).staging.filter
      (fun r => r.uid == 14) = [promoteRec (Value.int 365) c5New] :=
  promotion_overwrite (Value.int 365) [c5New] [c5Old] c5New
    (by decide) (by decide) (by decide) (by decide)

theorem moveCore_overlap (mask : FnriRec → Bool) (today : Value)
    (working staging : List FnriRec) (a b : FnriRec)
    (ha : a ∈ (moveCore mask today working staging).staging)
    (ham : a.uid ∈ (moveCore mask today working staging).movedIds)
    (hb : b ∈ (moveCore mask today working staging).staging)
    (hne : b.uid ≠ a.uid)
    (hint : intersectsOpt a.geometry b.geometry = true) :
    a.uid ∈ (moveCore mask today working staging).overlapIds := by
  unfold moveCore at ha hb ham ⊢
  by_cases he : (working.filter mask).isEmpty = true
  · rw [if_pos he] at ham
    dsimp only at ham
    exact absurd ham (List.not_mem_nil _)
  · rw [if_neg he] at ha hb ham ⊢
    dsimp only at ha hb ham ⊢
    have ham2 : a.uid ∈ moveIdsToMove mask working := by
      rw [(List.perm_insertionSort (· ≤ ·) _).mem_iff, List.mem_dedup] at ham
      exact ham
    rw [(List.perm_insertionSort (· ≤ ·) _).mem_iff, List.mem_dedup]
    unfold overlapScan
    rw [mem_idsOf]
    refine ⟨a, ?_, rfl⟩
    apply List.mem_filter.mpr
    refine ⟨List.mem_filter.mpr ⟨ha, by simpa using ham2⟩, ?_⟩
    rw [List.any_eq_true]
    refine ⟨b, hb, ?_⟩
    rw [Bool.and_eq_true]
    constructor
    · simpa using hne
    · exact hint

/-- Claim C7: the overlap scan runs against the staging snapshot that
includes the just-inserted records — a newly promoted record whose
geometry intersects any other staging record (promoted in the same run or
pre-existing) is flagged; two records promoted together with touching
geometries are BOTH flagged; and the underlying intersection test is
symmetric, so two intersecting records are each discoverable from the
other. -/
theorem overlap_flag_detection (today : Value)
    (working staging : List FnriRec) (a b : FnriRec) :
    (a ∈ (movePublishedToStaging today working staging).staging →
      a.uid ∈ (movePublishedToStaging today working staging).movedIds →
      b ∈ (movePublishedToStaging today working staging).staging →
      b.uid ≠ a.uid →
      intersectsOpt a.geometry b.geometry = true →
      a.uid ∈ (movePublishedToStaging today working staging).overlapIds) ∧
    (a ∈ (movePublishedToStaging today working staging).staging →
      a.uid ∈ (movePublishedToStaging today working staging).movedIds →
      b ∈ (movePublishedToStaging today working staging).staging →
      b.uid ∈ (movePublishedToStaging today working staging).movedIds →
      b.uid ≠ a.uid →
      intersectsOpt a.geometry b.geometry = true →
      a.uid ∈ (movePublishedToStaging today working staging).overlapIds ∧
      b.uid ∈ (movePublishedToStaging today working staging).overlapIds) ∧
    (∀ g h : Geom, intersects g h = intersects h g) := by
  refine ⟨?_, ?_, intersects_comm⟩
  · intro ha ham hb hne hint
    exact moveCore_overlap fnriReady today working staging a b
      ha ham hb hne hint
  · intro ha ham hb hbm hne hint
    constructor
    · exact moveCore_overlap fnriReady today working staging a b
        ha ham hb hne hint
    · apply moveCore_overlap fnriReady today working staging b a
        hb hbm ha (fun h => hne h.symm)
      rw [intersectsOpt_comm]
      exact hint

/-- First promoted record for the C7 witness. -/
def c7A : FnriRec :=
  { baseRec with
    uid := 21
    Review_Status_FNLT := Value.str "Review Complete"
    Review_Status_MIRR := Value.str "Review Complete"
    Publish_Status := Value.str "Ready to Publish"
    geometry := some ⟨0, 1, 0, 1⟩ }

/-- Second promoted record for the C7 witness; its box touches `c7A` at
x = 1. -/
def c7B : FnriRec :=
  { baseRec with
    uid := 22
    Review_Status_FNLT := Value.str "Review Complete"
    Review_Status_MIRR := Value.str "Review Complete"
    Publish_Status := Value.str "Ready to Publish"
    geometry := some ⟨1, 2, 0, 1⟩ }

/-- Witness for C7: two records promoted in the same run with touching
geometries are both flagged in the overlap list. -/
theorem overlap_flag_detection_witness :
    21 ∈ (movePublishedToStaging (Value.int 1) [c7A, c7B] []).overlapIds ∧
    22 ∈ (movePublishedToStaging (Value.int 1) [c7A, c7B] []).overlapIds :=
  (overlap_flag_detection (Value.int 1) [c7A, c7B] []
      (promoteRec (Value.int 1) c7A) (promoteRec (Value.int 1) c7B)).2.1
    (by decide) (by decide) (by decide) (by decide) (by decide) (by decide)

theorem hasUid_eq_mem (l : List FnriRec) (u : Nat) :
    hasUid l u = true ↔ u ∈ idsOf l := by
  rw [hasUid_iff, mem_idsOf]

/-- Attribute agreement on the edit whitelist between the two working
stores, for every identity present in both. -/
def editAgree (working agol : List FnriRec) : Prop :=
  ∀ a ∈ agol, ∀ w ∈ working, w.uid = a.uid → editValues a = editValues w

/-- The state a completed fnri_dataSync.py run leaves behind: working and
AGOL hold the same identities, every surviving AGOL row is not marked
retired, the edit whitelists agree on every common identity, no working
row still passes the promotion mask, and identities are unique within
each store. -/
def SyncInv (st : SyncState) : Prop :=
  (∀ w ∈ st.working, hasUid st.agol w.uid = true) ∧
  (∀ a ∈ st.agol, hasUid st.working a.uid = true) ∧
  (∀ a ∈ st.agol, (a.Publish_Status == retiredStatus) = false) ∧
  editAgree st.working st.agol ∧
  (∀ w ∈ st.working, fnriReady w = false) ∧
  idsNodup st.working ∧ idsNodup st.agol

theorem appendNew_noop {working agol : List FnriRec}
    (h : ∀ w ∈ working, hasUid agol w.uid = true) :
    appendNewAreas working agol = (agol, []) := by
  unfold appendNewAreas
  have hnil : working.filter (fun w => !hasUid agol w.uid) = [] := by
    rw [List.filter_eq_nil_iff]
    intro w hw hp
    rw [h w hw] at hp
    cases hp
  simp [hnil]

theorem deleteRetired_noop {working agol : List FnriRec}
    (h : ∀ a ∈ agol, (a.Publish_Status == retiredStatus) = false) :
    deleteRetired working agol = (working, agol, []) := by
  unfold deleteRetired
  have hnil : agol.filter (fun a => a.Publish_Status == retiredStatus) = [] := by
    rw [List.filter_eq_nil_iff]
    intro a ha hp
    rw [h a ha] at hp
    cases hp
  simp [hnil]

theorem modificationIds_nil {working agol : List FnriRec}
    (hagree : editAgree working agol) :
    modificationIds working agol = [] := by
  unfold modificationIds
  rw [List.filterMap_eq_nil_iff]
  intro a ha
  cases hfind : working.find? (fun w => w.uid == a.uid) with
  | none => rfl
  | some l =>
      have hl : l ∈ working := List.mem_of_find?_eq_some hfind
      have hlu : l.uid = a.uid := by
        have h1 := List.find?_some hfind
        simpa using h1
      have hmod : recModified a l = false :=
        (recModified_eq_false_iff a l).mpr (hagree a ha l hl hlu)
      simp [hmod]

theorem modifyEdited_noop {working agol : List FnriRec}
    (h : modificationIds working agol = []) :
    modifyEdited working agol = (working, []) := by
  unfold modifyEdited
  simp [h]

theorem move_noop {working staging : List FnriRec} {today : Value}
    (h : ∀ w ∈ working, fnriReady w = false) :
    movePublishedToStaging today working staging =
      ⟨working, staging, [], []⟩ := by
  unfold movePublishedToStaging moveCore
  have hnil : working.filter fnriReady = [] := by
    rw [List.filter_eq_nil_iff]
    intro w hw hp
    rw [h w hw] at hp
    cases hp
  simp [hnil]

theorem deleteRemoved_noop {working agol : List FnriRec}
    (h : ∀ a ∈ agol, hasUid working a.uid = true) :
    deleteRemovedFromAgol working agol = (agol, []) := by
  unfold deleteRemovedFromAgol
  have hnil : agol.filter (fun a => !hasUid working a.uid) = [] := by
    rw [List.filter_eq_nil_iff]
    intro a ha hp
    rw [h a ha] at hp
    cases hp
  simp [hnil]

theorem run_noop (today : Value) (ok : FnriRec → Bool) (st : SyncState)
    (inv : SyncInv st) :
    runPipeline today ok st =
      ⟨⟨st.working, st.agol, st.staging,
        (overwriteFeatureLayer ok st.staging).remote⟩,
       ⟨[], [], [], flagMissing st.working, [], [], [],
        (overwriteFeatureLayer ok st.staging).failedIds⟩⟩ := by
  obtain ⟨h1, h2, h3, h4, h5, _, _⟩ := inv
  have hmod := modifyEdited_noop (modificationIds_nil h4)
  have hmove := @move_noop st.working st.staging today h5
  simp only [runPipeline, appendNew_noop h1, deleteRetired_noop h3, hmod,
    hmove, deleteRemoved_noop h2]

theorem hasUid_append (l1 l2 : List FnriRec) (u : Nat) :
    hasUid (l1 ++ l2) u = (hasUid l1 u || hasUid l2 u) := by
  unfold hasUid
  exact List.any_append

theorem appendNew_subset {working agol : List FnriRec} :
    ∀ w ∈ working, hasUid (appendNewAreas working agol).1 w.uid = true := by
  intro w hw
  unfold appendNewAreas
  by_cases he : (working.filter fun w => !hasUid agol w.uid).isEmpty = true
  · rw [if_pos he]
    have hnil := List.isEmpty_iff.mp he
    rw [List.filter_eq_nil_iff] at hnil
    have hcon := hnil w hw
    cases hh : hasUid agol w.uid with
    | true => rfl
    | false => exact absurd (by rw [hh]; rfl) hcon
  · rw [if_neg he]
    dsimp only
    rw [hasUid_append]
    cases hh : hasUid agol w.uid with
    | true => rfl
    | false =>
        have hmem : w ∈ working.filter (fun w => !hasUid agol w.uid) :=
          List.mem_filter.mpr ⟨hw, by rw [hh]; rfl⟩
        have : hasUid (working.filter fun w => !hasUid agol w.uid) w.uid = true :=
          (hasUid_iff _ _).mpr ⟨w, hmem, rfl⟩
        rw [this]
        rfl

theorem appendNew_nodup {working agol : List FnriRec}
    (hW : idsNodup working) (hA : idsNodup agol) :
    idsNodup (appendNewAreas working agol).1 := by
  unfold appendNewAreas
  by_cases he : (working.filter fun w => !hasUid agol w.uid).isEmpty = true
  · rw [if_pos he]
    exact hA
  · rw [if_neg he]
    dsimp only
    have hfil : idsNodup (working.filter fun w => !hasUid agol w.uid) :=
      idsNodup_filter hW _
    unfold idsNodup idsOf at *
    rw [List.map_append]
    apply List.Nodup.append hA hfil
    intro u hu1 hu2
    obtain ⟨r, hr, hru⟩ := (mem_idsOf _ u).mp hu2
    have hcond := (List.mem_filter.mp hr).2
    have : hasUid agol r.uid = true := (hasUid_iff _ _).mpr
      (by
        obtain ⟨s, hs, hsu⟩ := (mem_idsOf _ u).mp hu1
        exact ⟨s, hs, by rw [hsu, hru]⟩)
    rw [this] at hcond
    cases hcond

theorem deleteRetired_facts (working agol : List FnriRec) :
    (∀ w ∈ (deleteRetired working agol).1, w ∈ working) ∧
    (∀ a ∈ (deleteRetired working agol).2.1, a ∈ agol ∧
      (a.Publish_Status == retiredStatus) = false) ∧
    ((∀ w ∈ working, hasUid agol w.uid = true) →
      ∀ w ∈ (deleteRetired working agol).1,
        hasUid (deleteRetired working agol).2.1 w.uid = true) := by
  unfold deleteRetired
  by_cases he :
      (agol.filter fun a => a.Publish_Status == retiredStatus).isEmpty = true
  · rw [if_pos he]
    dsimp only
    have hnil := List.isEmpty_iff.mp he
    rw [List.filter_eq_nil_iff] at hnil
    refine ⟨fun w hw => hw, fun a ha => ⟨ha, ?_⟩, fun h w hw => h w hw⟩
    have hcon := hnil a ha
    cases hst : (a.Publish_Status == retiredStatus) with
    | false => rfl
    | true => exact absurd hst hcon
  · rw [if_neg he]
    dsimp only
    refine ⟨?_, ?_, ?_⟩
    · intro w hw
      exact (List.mem_filter.mp hw).1
    · intro a ha
      have h := List.mem_filter.mp ha
      refine ⟨h.1, ?_⟩
      cases hst : (a.Publish_Status == retiredStatus) with
      | false => rfl
      | true =>
          have hmem : a ∈ agol.filter (fun a => a.Publish_Status == retiredStatus) :=
            List.mem_filter.mpr ⟨h.1, hst⟩
          have hin : a.uid ∈
              idsOf (agol.filter fun a => a.Publish_Status == retiredStatus) :=
            (mem_idsOf _ _).mpr ⟨a, hmem, rfl⟩
          have hcontains :
              (idsOf (agol.filter fun a =>
                a.Publish_Status == retiredStatus)).contains a.uid = true := by
            simpa using hin
          have hc := h.2
          rw [hcontains] at hc
          cases hc
    · intro h w hw
      have hwf := List.mem_filter.mp hw
      have hh := h w hwf.1
      rw [hasUid_iff] at hh ⊢
      obtain ⟨a, ha, hau⟩ := hh
      refine ⟨a, List.mem_filter.mpr ⟨ha, ?_⟩, hau⟩
      rw [hau]
      exact hwf.2

theorem deleteRetired_nodup {working agol : List FnriRec}
    (hW : idsNodup working) (hA : idsNodup agol) :
    idsNodup (deleteRetired working agol).1 ∧
    idsNodup (deleteRetired working agol).2.1 := by
  unfold deleteRetired
  by_cases he :
      (agol.filter fun a => a.Publish_Status == retiredStatus).isEmpty = true
  · rw [if_pos he]
    exact ⟨hW, hA⟩
  · rw [if_neg he]
    exact ⟨idsNodup_filter hW _, idsNodup_filter hA _⟩

theorem modifyEdited_ids (working agol : List FnriRec) :
    idsOf (modifyEdited working agol).1 = idsOf working := by
  unfold modifyEdited
  by_cases hm : (modificationIds working agol).isEmpty = true
  · rw [if_pos hm]
  · rw [if_neg hm]
    dsimp only
    unfold idsOf
    rw [List.map_map]
    apply List.map_congr_left
    intro x _
    show (if (modificationIds working agol).contains x.uid = true then
        match agol.find? (fun a => a.uid == x.uid) with
        | some a => setEditFields a x
        | none => x
      else x).uid = x.uid
    by_cases hc : (modificationIds working agol).contains x.uid = true
    · rw [if_pos hc]
      cases hfind : agol.find? (fun a => a.uid == x.uid) with
      | none => simp [hfind]
      | some a => simp [hfind, setEditFields]
    · rw [if_neg hc]

theorem modifyEdited_nodup {working agol : List FnriRec}
    (hW : idsNodup working) : idsNodup (modifyEdited working agol).1 := by
  unfold idsNodup
  rw [modifyEdited_ids]
  exact hW

theorem modifyEdited_agree {working agol : List FnriRec}
    (hW : idsNodup working) (hA : idsNodup agol) :
    editAgree (modifyEdited working agol).1 agol := by
  intro a ha x hx hxu
  unfold modifyEdited at hx
  by_cases hm : (modificationIds working agol).isEmpty = true
  · rw [if_pos hm] at hx
    have hnil : modificationIds working agol = [] := List.isEmpty_iff.mp hm
    unfold modificationIds at hnil
    rw [List.filterMap_eq_nil_iff] at hnil
    have hfind : working.find? (fun w => w.uid == a.uid) = some x := by
      have h1 := find?_uid_eq hW hx
      rw [hxu] at h1
      exact h1
    have h2 := hnil a ha
    rw [hfind] at h2
    by_cases hr : recModified a x = true
    · simp [hr] at h2
    · have hr2 : recModified a x = false := by
        revert hr; cases recModified a x <;> simp
      exact (recModified_eq_false_iff a x).mp hr2
  · rw [if_neg hm] at hx
    dsimp only at hx
    rw [List.mem_map] at hx
    obtain ⟨w0, hw0, hfx⟩ := hx
    by_cases hc : (modificationIds working agol).contains w0.uid = true
    · rw [if_pos hc] at hfx
      cases hfind : agol.find? (fun b => b.uid == w0.uid) with
      | none =>
          rw [hfind] at hfx
          have hsome : (agol.find? (fun b => b.uid == w0.uid)).isSome := by
            rw [List.find?_isSome]
            refine ⟨a, ha, ?_⟩
            have : a.uid = w0.uid := by
              rw [← hxu, ← hfx]
            simp [this]
          rw [hfind] at hsome
          cases hsome
      | some a2 =>
          rw [hfind] at hfx
          have ha2mem := List.mem_of_find?_eq_some hfind
          have ha2u : a2.uid = w0.uid := by
            have h1 := List.find?_some hfind
            simpa using h1
          have hxw : x.uid = w0.uid := by
            rw [← hfx]
            rfl
          have haa2 : a = a2 :=
            uid_inj_of_nodup hA ha ha2mem
              (by rw [ha2u, ← hxw, hxu])
          rw [← hfx, editValues_setEditFields, haa2]
    · rw [if_neg hc] at hfx
      have hfind : working.find? (fun w => w.uid == a.uid) = some w0 := by
        have h1 := find?_uid_eq hW hw0
        have hwu : w0.uid = a.uid := by rw [← hxu, ← hfx]
        rw [hwu] at h1
        exact h1
      by_cases hr : recModified a w0 = true
      · have hmm : a.uid ∈ modificationIds working agol := by
          unfold modificationIds
          rw [List.mem_filterMap]
          exact ⟨a, ha, by rw [hfind]; simp [hr]⟩
        have hcc : (modificationIds working agol).contains w0.uid = true := by
          have hwu : w0.uid = a.uid := by rw [← hxu, ← hfx]
          rw [hwu]
          simpa using hmm
        exact absurd hcc hc
      · have hr2 : recModified a w0 = false := by
          revert hr; cases recModified a w0 <;> simp
        rw [← hfx]
        exact (recModified_eq_false_iff a w0).mp hr2

theorem move_working_facts (today : Value) (working staging : List FnriRec) :
    (∀ x ∈ (movePublishedToStaging today working staging).working,
      x ∈ working) ∧
    (∀ x ∈ (movePublishedToStaging today working staging).working,
      fnriReady x = false) := by
  unfold movePublishedToStaging moveCore
  by_cases he : (working.filter fnriReady).isEmpty = true
  · rw [if_pos he]
    dsimp only
    have hnil := List.isEmpty_iff.mp he
    rw [List.filter_eq_nil_iff] at hnil
    refine ⟨fun x hx => hx, fun x hx => ?_⟩
    have hcon := hnil x hx
    cases hr : fnriReady x with
    | false => rfl
    | true => exact absurd hr hcon
  · rw [if_neg he]
    dsimp only
    unfold moveWorkingOut
    constructor
    · intro x hx
      exact (List.mem_filter.mp hx).1
    · intro x hx
      have h := List.mem_filter.mp hx
      cases hr : fnriReady x with
      | false => rfl
      | true =>
          have hmem : x ∈ working.filter fnriReady :=
            List.mem_filter.mpr ⟨h.1, hr⟩
          have hin : x.uid ∈ moveIdsToMove fnriReady working :=
            (mem_idsOf _ _).mpr ⟨x, hmem, rfl⟩
          have hcontains :
              (moveIdsToMove fnriReady working).contains x.uid = true := by
            simpa using hin
          have hc := h.2
          rw [hcontains] at hc
          cases hc

theorem move_nodup (today : Value) (working staging : List FnriRec)
    (hW : idsNodup working) :
    idsNodup (movePublishedToStaging today working staging).working := by
  unfold movePublishedToStaging moveCore
  by_cases he : (working.filter fnriReady).isEmpty = true
  · rw [if_pos he]
    exact hW
  · rw [if_neg he]
    dsimp only
    unfold moveWorkingOut
    exact idsNodup_filter hW _

theorem deleteRemoved_facts (working agol : List FnriRec) :
    (∀ a ∈ (deleteRemovedFromAgol working agol).1,
      a ∈ agol ∧ hasUid working a.uid = true) ∧
    ((∀ w ∈ working, hasUid agol w.uid = true) →
      ∀ w ∈ working, hasUid (deleteRemovedFromAgol working agol).1 w.uid = true) := by
  unfold deleteRemovedFromAgol
  by_cases he : (agol.filter fun a => !hasUid working a.uid).isEmpty = true
  · rw [if_pos he]
    dsimp only
    have hnil := List.isEmpty_iff.mp he
    rw [List.filter_eq_nil_iff] at hnil
    constructor
    · intro a ha
      refine ⟨ha, ?_⟩
      have hcon := hnil a ha
      cases hh : hasUid working a.uid with
      | true => rfl
      | false => exact absurd (by rw [hh]; rfl) hcon
    · intro h w hw
      exact h w hw
  · rw [if_neg he]
    dsimp only
    constructor
    · intro a ha
      have h := List.mem_filter.mp ha
      exact ⟨h.1, h.2⟩
    · intro h w hw
      have hh := h w hw
      rw [hasUid_iff] at hh ⊢
      obtain ⟨a, ha, hau⟩ := hh
      refine ⟨a, List.mem_filter.mpr ⟨ha, ?_⟩, hau⟩
      rw [hau]
      exact (hasUid_iff _ _).mpr ⟨w, hw, rfl⟩

theorem deleteRemoved_nodup {working agol : List FnriRec}
    (hA : idsNodup agol) :
    idsNodup (deleteRemovedFromAgol working agol).1 := by
  unfold deleteRemovedFromAgol
  by_cases he : (agol.filter fun a => !hasUid working a.uid).isEmpty = true
  · rw [if_pos he]
    exact hA
  · rw [if_neg he]
    exact idsNodup_filter hA _

theorem editAgree_mono {w1 w2 a1 a2 : List FnriRec}
    (hw : ∀ x ∈ w2, x ∈ w1) (ha : ∀ x ∈ a2, x ∈ a1)
    (h : editAgree w1 a1) : editAgree w2 a2 :=
  fun a haa x hxx hxu => h a (ha a haa) x (hw x hxx) hxu

theorem uidSubset_of_ids_eq {l1 l2 agol : List FnriRec}
    (h : idsOf l1 = idsOf l2)
    (hsub : ∀ w ∈ l2, hasUid agol w.uid = true) :
    ∀ w ∈ l1, hasUid agol w.uid = true := by
  intro w hw
  have h1 : w.uid ∈ idsOf l2 := by
    rw [← h]
    exact (mem_idsOf _ _).mpr ⟨w, hw, rfl⟩
  obtain ⟨w2, hw2, he⟩ := (mem_idsOf _ _).mp h1
  rw [← he]
  exact hsub w2 hw2

theorem run_establishes_inv (today : Value) (ok : FnriRec → Bool)
    (st : SyncState) (hW : idsNodup st.working) (hA : idsNodup st.agol) :
    SyncInv (runPipeline today ok st).state := by
  unfold runPipeline SyncInv
  dsimp only
  have fA1sub : ∀ w ∈ st.working,
      hasUid (appendNewAreas st.working st.agol).1 w.uid = true :=
    appendNew_subset
  have fA1nodup : idsNodup (appendNewAreas st.working st.agol).1 :=
    appendNew_nodup hW hA
  have fD := deleteRetired_facts st.working (appendNewAreas st.working st.agol).1
  have fDnodup := deleteRetired_nodup hW fA1nodup
  have fW2sub := fD.2.2 fA1sub
  have fA2nored : ∀ a ∈ (deleteRetired st.working
      (appendNewAreas st.working st.agol).1).2.1,
      (a.Publish_Status == retiredStatus) = false :=
    fun a ha => (fD.2.1 a ha).2
  have fIds3 := modifyEdited_ids
    (deleteRetired st.working (appendNewAreas st.working st.agol).1).1
    (deleteRetired st.working (appendNewAreas st.working st.agol).1).2.1
  have fW3nodup : idsNodup (modifyEdited
      (deleteRetired st.working (appendNewAreas st.working st.agol).1).1
      (deleteRetired st.working (appendNewAreas st.working st.agol).1).2.1).1 :=
    modifyEdited_nodup fDnodup.1
  have fAgree3 := modifyEdited_agree fDnodup.1 fDnodup.2
  have fW3sub := uidSubset_of_ids_eq fIds3 fW2sub
  have fV := move_working_facts today
    (modifyEdited
      (deleteRetired st.working (appendNewAreas st.working st.agol).1).1
      (deleteRetired st.working (appendNewAreas st.working st.agol).1).2.1).1
    st.staging
  have fW5nodup := move_nodup today
    (modifyEdited
      (deleteRetired st.working (appendNewAreas st.working st.agol).1).1
      (deleteRetired st.working (appendNewAreas st.working st.agol).1).2.1).1
    st.staging fW3nodup
  have fW5sub : ∀ w ∈ (movePublishedToStaging today
      (modifyEdited
        (deleteRetired st.working (appendNewAreas st.working st.agol).1).1
        (deleteRetired st.working (appendNewAreas st.working st.agol).1).2.1).1
      st.staging).working,
      hasUid (deleteRetired st.working
        (appendNewAreas st.working st.agol).1).2.1 w.uid = true :=
    fun w hw => fW3sub w (fV.1 w hw)
  have fR := deleteRemoved_facts
    (movePublishedToStaging today
      (modifyEdited
        (deleteRetired st.working (appendNewAreas st.working st.agol).1).1
        (deleteRetired st.working (appendNewAreas st.working st.agol).1).2.1).1
      st.staging).working
    (deleteRetired st.working (appendNewAreas st.working st.agol).1).2.1
  have fRnodup := @deleteRemoved_nodup
    (movePublishedToStaging today
      (modifyEdited
        (deleteRetired st.working (appendNewAreas st.working st.agol).1).1
        (deleteRetired st.working (appendNewAreas st.working st.agol).1).2.1).1
      st.staging).working
    (deleteRetired st.working (appendNewAreas st.working st.agol).1).2.1
    fDnodup.2
  refine ⟨fR.2 fW5sub, fun a ha => (fR.1 a ha).2,
    fun a ha => fA2nored a (fR.1 a ha).1,
    editAgree_mono fV.1 (fun a ha => (fR.1 a ha).1) fAgree3,
    fV.2, fW5nodup, fRnodup⟩

/-- Claim C6: running the full reconcile+promote+publish pipeline twice in
succession with no external change between the runs produces an empty
ChangeSet on the second run — no additions, no retirement deletions, no
modifications, no moves, no removal deletions — and leaves the remote
store exactly as the first run left it.  (The stores are assumed to
satisfy the data-model invariant that identities are unique within a
store.) -/
theorem pipeline_idempotent (today : Value) (ok : FnriRec → Bool)
    (st : SyncState) (hW : idsNodup st.working) (hA : idsNodup st.agol) :
    (runPipeline today ok (runPipeline today ok st).state).log.added = [] ∧
    (runPipeline today ok (runPipeline today ok st).state).log.retired = [] ∧
    (runPipeline today ok (runPipeline today ok st).state).log.modified = [] ∧
    (runPipeline today ok (runPipeline today ok st).state).log.moved = [] ∧
    (runPipeline today ok (runPipeline today ok st).state).log.removed = [] ∧
    (runPipeline today ok (runPipeline today ok st).state).state.remote =
      (runPipeline today ok st).state.remote := by
  have hinv := run_establishes_inv today ok st hW hA
  rw [run_noop today ok _ hinv]
  exact ⟨rfl, rfl, rfl, rfl, rfl, rfl⟩

/-- Concrete initial state for the C6 witness: one working record, one
unrelated AGOL record, empty staging and remote stores. -/
def c6State : SyncState :=
  ⟨[{ baseRec with uid := 31, FIRST_NATION := Value.str "X" }],
   [{ baseRec with uid := 32 }], [], []⟩

/-- Witness for C6 at a concrete state: the second run detects nothing and
the remote store is unchanged. -/
theorem pipeline_idempotent_witness :
    (runPipeline (Value.int 1) (fun _ => true)
      (runPipeline (Value.int 1) (fun _ => true) c6State).state).log.added
      = [] ∧
    (runPipeline (Value.int 1) (fun _ => true)
      (runPipeline (Value.int 1) (fun _ => true) c6State).state).log.moved
      = [] ∧
    (runPipeline (Value.int 1) (fun _ => true)
      (runPipeline (Value.int 1) (fun _ => true) c6State).state).state.remote
      = (runPipeline (Value.int 1) (fun _ => true) c6State).state.remote :=
  ⟨(pipeline_idempotent (Value.int 1) (fun _ => true) c6State
      (by decide) (by decide)).1,
   (pipeline_idempotent (Value.int 1) (fun _ => true) c6State
      (by decide) (by decide)).2.2.2.1,
   (pipeline_idempotent (Value.int 1) (fun _ => true) c6State
      (by decide) (by decide)).2.2.2.2.2⟩
